import Mathlib

set_option linter.dupNamespace false

/-!
Verification of the signing core of suborbital/go-bindle
(`types/signature.go`): invoice canonical-text construction,
signature generation (`GenerateSignature`), and signature
verification (`VerifySignatures`), via a shallow embedding.

Go byte slices are modelled as `List UInt8`; Go errors and panics are
modelled by an explicit result type; the mutable `*Invoice` receiver is
modelled by returning the post-call invoice next to the result.
-/

namespace GoBindle

/-- Byte strings, as in Go `[]byte`. -/
abbrev Bytes := List UInt8

/-- Modelled from the spec: the invoice's `Bindle` descriptor block
(`Bindle.Name`, `Bindle.Version`, `Bindle.Authors`), declared in a file of
this repository that is not under `src/`. -/
structure BindleSpec where
  Name : String
  Version : String
  Authors : List String
deriving DecidableEq

/-- Modelled from the spec: a parcel's label, carrying the content digest
string `SHA256`; declared outside `src/`. -/
structure ParcelLabel where
  SHA256 : String
deriving DecidableEq

/-- Modelled from the spec: one content-addressed parcel, exposing
`.Label.SHA256`; declared outside `src/`. -/
structure Parcel where
  Label : ParcelLabel
deriving DecidableEq

/-- A stored signature record, as described by the spec's data model:
`{By, Signature, Key, Role, At}` (declared outside `src/`). -/
structure Signature where
  By : String
  Signature : String
  Key : String
  Role : String
  At : Int
deriving DecidableEq

/-- Modelled from the spec: a named, role-scoped public key with a
self-certificate (declared outside `src/`): `Label`, base64 `Key`,
role list `Roles`, base64 `LabelSignature`. -/
structure SignatureKey where
  Label : String
  Key : String
  Roles : List String
  LabelSignature : String
deriving DecidableEq

/-- Modelled from the spec: the invoice document, exposing `Bindle`,
the parcel sequence `Parcel`, and the signature sequence `Signature`
(declared outside `src/`). Go's `nil` slice behaves exactly like the
empty slice for iteration and append, so both are modelled as `[]`. -/
structure Invoice where
  Bindle : BindleSpec
  Parcel : List Parcel
  Signature : List Signature
deriving DecidableEq

/-- Modelled from the spec: `IncludesRole` is the capability check
`role ∈ sigKey.Roles` (declared outside `src/`). -/
def SignatureKey.IncludesRole (k : SignatureKey) (role : String) : Bool :=
  k.Roles.any (fun r => r == role)

/-- The error values of `types/signature.go`, plus the generic base64
decoding error that the Go code propagates verbatim. -/
inductive SigErr where
  | invalidRole
  | authorNotExist
  | signatureKeyRoleMismatch
  | invalidSignatureKey
  | invalidSignature
  | missingSignatureKey
  | decodeError
deriving DecidableEq

/-- Outcome of a Go call: normal return with `nil` error, normal return
with a non-nil error, or a runtime panic. -/
inductive GoResult where
  | ok
  | err (e : SigErr)
  | panicked
deriving DecidableEq

/-- The `ValidRoles` map of `signature.go`: membership (with value `true`)
of a role string in the fixed vocabulary. -/
def ValidRoles (role : String) : Bool :=
  role == "creator" || role == "approver" || role == "proxy" || role == "host"

/-- Modelled from Go `encoding/base64` `StdEncoding.EncodeToString`: an
injective encoding of byte sequences into strings. The exact alphabet is
irrelevant to this core; bytes are rendered as the characters with the
corresponding code points. -/
def base64Encode (b : Bytes) : String :=
  ⟨b.map (fun u => Char.ofNat u.toNat)⟩

/-- Modelled from Go `encoding/base64` `StdEncoding.DecodeString`: returns
the decoded bytes, or fails (a non-nil error) exactly on strings outside
the range of the encoding (here: containing a character above code point
255). -/
def base64Decode (s : String) : Option Bytes :=
  if s.data.all (fun c => c.toNat < 256) then
    some (s.data.map (fun c => UInt8.ofNat c.toNat))
  else
    none

/-- The byte sequence of a string, as Go's `[]byte(s)` conversion
(UTF-8 bytes). -/
def strBytes (s : String) : Bytes :=
  (s.data.map String.utf8EncodeChar).flatten

/-- Modelled from Go `crypto/ed25519`: `Sign` panics (`none`) unless the
private key is exactly 64 bytes (seed followed by the 32-byte public key).
The signature is modelled as the signer's public key followed by the
message, which makes `edVerify` accept exactly the signatures produced
with the matching private key. -/
def edSign (priv msg : Bytes) : Option Bytes :=
  if priv.length = 64 then some (priv.drop 32 ++ msg) else none

/-- Modelled from Go `crypto/ed25519`: `Verify` panics (`none`) unless the
public key is exactly 32 bytes; otherwise it reports whether `sig` is a
valid signature of `msg` under `pub`. A wrong-length signature merely
fails to verify, it does not panic. -/
def edVerify (pub msg sig : Bytes) : Option Bool :=
  if pub.length = 32 then some (sig == pub ++ msg) else none

/-- Go `strings.Join`. -/
def goJoin (sep : String) : List String → String
  | [] => ""
  | [s] => s
  | s :: rest => s ++ sep ++ goJoin sep rest

/-- `Invoice.IsAuthoredBy` from `signature.go`: linear scan of
`Bindle.Authors` comparing with `==`. -/
def Invoice.IsAuthoredBy (i : Invoice) (author : String) : Bool :=
  i.Bindle.Authors.any (fun a => a == author)

/-- `Invoice.generateCleartext` from `signature.go`: start from the five
metadata parts, append each parcel's `Label.SHA256` in list order, and
join with a newline. -/
def Invoice.generateCleartext (i : Invoice) (author role : String) : String :=
  goJoin "\n"
    (i.Parcel.foldl (fun parts p => parts ++ [p.Label.SHA256])
      [author, i.Bindle.Name, i.Bindle.Version, role, "~"])

/-- `Invoice.GenerateSignature` from `signature.go`. The wall-clock read
`time.Now()` is passed in as `now`; the second component of the result is
the invoice after the call (Go mutates the receiver in place, and only in
the final append). -/
def Invoice.GenerateSignature (i : Invoice) (author role : String)
    (sigKey : SignatureKey) (privKey : Bytes) (now : Int) :
    GoResult × Invoice :=
  if ¬(ValidRoles role) then (.err .invalidRole, i)
  else if ¬(sigKey.IncludesRole role) then (.err .signatureKeyRoleMismatch, i)
  else if ¬(i.IsAuthoredBy author) then (.err .authorNotExist, i)
  else
    let cleartext := i.generateCleartext author role
    match edSign privKey (strBytes cleartext) with
    | none => (.panicked, i)
    | some sig =>
      match base64Decode sigKey.Key with
      | none => (.err .decodeError, i)
      | some pubKey =>
        let signature : GoBindle.Signature :=
          { By := author
            Signature := base64Encode sig
            Key := base64Encode pubKey
            Role := role
            At := now }
        (.ok, { i with Signature := i.Signature ++ [signature] })

/-- The `map[string]*SignatureKey` of `VerifySignatures`, keyed by label.
Insertion overwrites, which an association list models by putting the new
binding in front. -/
abbrev KeyMap := List (String × SignatureKey)

/-- Go map assignment `keys[label] = &key`. -/
def mapInsert (m : KeyMap) (label : String) (k : SignatureKey) : KeyMap :=
  (label, k) :: m

/-- Go map access `keys[label]` (`nil` when absent). -/
def mapLookup (m : KeyMap) (label : String) : Option SignatureKey :=
  match m.find? (fun p => p.1 == label) with
  | some p => some p.2
  | none => none

/-- Phase 1 of `VerifySignatures`: decode each supplied key's `Key` and
`LabelSignature`, check the self-certificate, and index the key by label;
abort with the corresponding result on the first failure. -/
def collectKeys : List SignatureKey → KeyMap → GoResult ⊕ KeyMap
  | [], acc => .inr acc
  | key :: rest, acc =>
    match base64Decode key.Key with
    | none => .inl (.err .decodeError)
    | some keyBytes =>
      match base64Decode key.LabelSignature with
      | none => .inl (.err .decodeError)
      | some labelSigBytes =>
        match edVerify keyBytes (strBytes key.Label) labelSigBytes with
        | none => .inl .panicked
        | some valid =>
          if valid then collectKeys rest (mapInsert acc key.Label key)
          else .inl (.err .invalidSignatureKey)

/-- Phase 2 of `VerifySignatures`: check each stored signature record
against the key indexed under its `By`, aborting on the first failure. -/
def checkSigs (i : Invoice) (keys : KeyMap) : List GoBindle.Signature → GoResult
  | [] => .ok
  | s :: rest =>
    match mapLookup keys s.By with
    | none => .err .missingSignatureKey
    | some key =>
      if ¬(key.IncludesRole s.Role) then .err .signatureKeyRoleMismatch
      else
        match base64Decode key.Key with
        | none => .err .decodeError
        | some keyBytes =>
          match base64Decode s.Signature with
          | none => .err .decodeError
          | some sigBytes =>
            match edVerify keyBytes
                (strBytes (i.generateCleartext key.Label s.Role)) sigBytes with
            | none => .panicked
            | some valid =>
              if valid then checkSigs i keys rest else .err .invalidSignature

/-- `Invoice.VerifySignatures` from `signature.go`. The second component
is the invoice after the call (the Go body never assigns to the
receiver). -/
def Invoice.VerifySignatures (i : Invoice) (sigKeys : List SignatureKey) :
    GoResult × Invoice :=
  match collectKeys sigKeys [] with
  | .inl r => (r, i)
  | .inr keys => (checkSigs i keys i.Signature, i)

/-! Joining at the character level, used to reason about `goJoin` and
`String.intercalate`. -/

/-- Character-level join with a separator, mirroring `goJoin`. -/
def joinC (sep : List Char) : List (List Char) → List Char
  | [] => []
  | [x] => x
  | x :: xs => x ++ sep ++ joinC sep xs

theorem goJoin_data (s : String) :
    ∀ l : List String, (goJoin s l).data = joinC s.data (l.map String.data)
  | [] => rfl
  | [_] => rfl
  | x :: y :: xs => by
    show (x ++ s ++ goJoin s (y :: xs)).data = _
    rw [String.data_append, String.data_append, goJoin_data s (y :: xs)]
    rfl

theorem goJoin_cons_cons (s x y : String) (xs : List String) :
    goJoin s (x :: y :: xs) = x ++ s ++ goJoin s (y :: xs) := rfl

theorem goJoin_step (s acc a : String) (as : List String) :
    goJoin s ((acc ++ s ++ a) :: as) = acc ++ s ++ goJoin s (a :: as) := by
  cases as with
  | nil => rfl
  | cons b bs =>
    rw [goJoin_cons_cons, goJoin_cons_cons]
    simp [String.append_assoc]

theorem intercalate_go_eq (s : String) :
    ∀ (l : List String) (acc : String),
      String.intercalate.go acc s l = goJoin s (acc :: l)
  | [], _ => rfl
  | a :: as, acc => by
    show String.intercalate.go (acc ++ s ++ a) s as = _
    rw [intercalate_go_eq s as (acc ++ s ++ a), goJoin_step]
    exact (goJoin_cons_cons s acc a as).symm

theorem intercalate_eq_goJoin (s : String) (l : List String) :
    String.intercalate s l = goJoin s l := by
  cases l with
  | nil => rfl
  | cons a as =>
    show String.intercalate.go a s as = _
    exact intercalate_go_eq s as a

theorem foldl_push {α β : Type} (f : α → β) :
    ∀ (l : List α) (init : List β),
      l.foldl (fun acc x => acc ++ [f x]) init = init ++ l.map f
  | [], init => by simp
  | x :: xs, init => by
    simp only [List.foldl_cons, List.map_cons]
    rw [foldl_push f xs (init ++ [f x])]
    simp

theorem generateCleartext_eq_goJoin (i : Invoice) (author role : String) :
    i.generateCleartext author role =
      goJoin "\n" ([author, i.Bindle.Name, i.Bindle.Version, role, "~"] ++
        i.Parcel.map (fun p => p.Label.SHA256)) := by
  unfold Invoice.generateCleartext
  rw [foldl_push]

/-- The invoice of the worked example in the source's cleartext comment. -/
def exampleInvoice : Invoice :=
  { Bindle :=
      { Name := "mybindle"
        Version := "0.1.0"
        Authors := ["Matt Butcher <matt.butcher@example.com>"] }
    Parcel :=
      [⟨⟨"e1706ab0a39ac88094b6d54a3f5cdba41fe5a901"⟩⟩,
       ⟨⟨"098fa798779ac88094b6d54a3f5cdba41fe5a901"⟩⟩,
       ⟨⟨"5b992e90b71d5fadab3cd3777230ef370df75f5b"⟩⟩]
    Signature := [] }

/-- C1: the canonical text produced by `generateCleartext` is the
newline-join, in fixed order, of the author, the bindle name, the bindle
version, the role, the literal token `~`, and every parcel's `SHA256` in
list order; in particular the worked example invoice yields exactly the
documented cleartext. -/
theorem cleartext_is_newline_join :
    (∀ (i : Invoice) (author role : String),
      i.generateCleartext author role =
        String.intercalate "\n"
          ([author, i.Bindle.Name, i.Bindle.Version, role, "~"] ++
            i.Parcel.map (fun p => p.Label.SHA256))) ∧
    exampleInvoice.generateCleartext
        "Matt Butcher <matt.butcher@example.com>" "creator" =
      "Matt Butcher <matt.butcher@example.com>\nmybindle\n0.1.0\ncreator\n~\ne1706ab0a39ac88094b6d54a3f5cdba41fe5a901\n098fa798779ac88094b6d54a3f5cdba41fe5a901\n5b992e90b71d5fadab3cd3777230ef370df75f5b" := by
  constructor
  · intro i author role
    rw [generateCleartext_eq_goJoin, intercalate_eq_goJoin]
  · rfl

/-! Round-trip facts about the byte-string encoding. -/

theorem char_roundtrip (n : Nat) (h : n < 256) : (Char.ofNat n).toNat = n := by
  have hv : n.isValidChar := Or.inl (by omega)
  rw [Char.ofNat, dif_pos hv]
  rfl

theorem uint8_roundtrip (u : UInt8) : UInt8.ofNat u.toNat = u := by
  have h : u.toNat < UInt8.size := u.toNat_lt
  apply UInt8.toNat.inj
  rw [UInt8.toNat_ofNat_of_lt h]

theorem uint8_lt_256 (u : UInt8) : u.toNat < 256 := u.toNat_lt

theorem base64_roundtrip (b : Bytes) :
    base64Decode (base64Encode b) = some b := by
  have hd : (base64Encode b).data = b.map (fun u => Char.ofNat u.toNat) := rfl
  have hstep : ∀ u : UInt8, UInt8.ofNat ((Char.ofNat u.toNat).toNat) = u := by
    intro u
    rw [char_roundtrip _ (uint8_lt_256 u)]
    exact uint8_roundtrip u
  unfold base64Decode
  rw [hd]
  rw [if_pos]
  · rw [List.map_map]
    congr 1
    calc b.map ((fun c : Char => UInt8.ofNat c.toNat) ∘ fun u : UInt8 => Char.ofNat u.toNat)
        = b.map id := List.map_congr_left (fun u _ => hstep u)
      _ = b := List.map_id b
  · rw [List.all_eq_true]
    intro c hc
    rcases List.mem_map.mp hc with ⟨u, _, rfl⟩
    rw [char_roundtrip _ (uint8_lt_256 u)]
    exact decide_eq_true (uint8_lt_256 u)

/-! Case analysis of `GenerateSignature`. -/

theorem genSig_invalidRole (i : Invoice) (author role : String)
    (key : SignatureKey) (priv : Bytes) (now : Int)
    (h1 : ValidRoles role = false) :
    i.GenerateSignature author role key priv now = (.err .invalidRole, i) := by
  simp [Invoice.GenerateSignature, h1]

theorem genSig_roleMismatch (i : Invoice) (author role : String)
    (key : SignatureKey) (priv : Bytes) (now : Int)
    (h1 : ValidRoles role = true) (h2 : key.IncludesRole role = false) :
    i.GenerateSignature author role key priv now =
      (.err .signatureKeyRoleMismatch, i) := by
  simp [Invoice.GenerateSignature, h1, h2]

theorem genSig_authorNotExist (i : Invoice) (author role : String)
    (key : SignatureKey) (priv : Bytes) (now : Int)
    (h1 : ValidRoles role = true) (h2 : key.IncludesRole role = true)
    (h3 : i.IsAuthoredBy author = false) :
    i.GenerateSignature author role key priv now = (.err .authorNotExist, i) := by
  simp [Invoice.GenerateSignature, h1, h2, h3]

theorem genSig_panic (i : Invoice) (author role : String)
    (key : SignatureKey) (priv : Bytes) (now : Int)
    (h1 : ValidRoles role = true) (h2 : key.IncludesRole role = true)
    (h3 : i.IsAuthoredBy author = true) (h4 : priv.length ≠ 64) :
    i.GenerateSignature author role key priv now = (.panicked, i) := by
  simp [Invoice.GenerateSignature, h1, h2, h3, edSign, h4]

theorem genSig_decodeErr (i : Invoice) (author role : String)
    (key : SignatureKey) (priv : Bytes) (now : Int)
    (h1 : ValidRoles role = true) (h2 : key.IncludesRole role = true)
    (h3 : i.IsAuthoredBy author = true) (h4 : priv.length = 64)
    (h5 : base64Decode key.Key = none) :
    i.GenerateSignature author role key priv now = (.err .decodeError, i) := by
  simp [Invoice.GenerateSignature, h1, h2, h3, edSign, h4, h5]

theorem genSig_ok (i : Invoice) (author role : String)
    (key : SignatureKey) (priv : Bytes) (now : Int) (pk : Bytes)
    (h1 : ValidRoles role = true) (h2 : key.IncludesRole role = true)
    (h3 : i.IsAuthoredBy author = true) (h4 : priv.length = 64)
    (h5 : base64Decode key.Key = some pk) :
    i.GenerateSignature author role key priv now =
      (.ok,
       { i with Signature := i.Signature ++
          [{ By := author
             Signature := base64Encode
               (priv.drop 32 ++ strBytes (i.generateCleartext author role))
             Key := base64Encode pk
             Role := role
             At := now }] }) := by
  simp [Invoice.GenerateSignature, h1, h2, h3, edSign, h4, h5]

/-! Concrete fixtures used by witnesses and counterexamples. -/

/-- A 32-byte public key (all bytes `1`). -/
def tPub : Bytes := List.replicate 32 1

/-- The matching 64-byte private key: 32-byte seed then the public key. -/
def tPriv : Bytes := List.replicate 32 0 ++ tPub

/-- A second, different 32-byte public key (all bytes `2`). -/
def tPub2 : Bytes := List.replicate 32 2

/-- The private key matching `tPub2`. -/
def tPriv2 : Bytes := List.replicate 32 0 ++ tPub2

/-- A well-formed creator key for `tPub` with the given label and a valid
self-certificate. -/
def tKey (label : String) : SignatureKey :=
  { Label := label
    Key := base64Encode tPub
    Roles := ["creator"]
    LabelSignature := base64Encode (tPub ++ strBytes label) }

/-- A well-formed creator key for `tPub2`. -/
def tKey2 (label : String) : SignatureKey :=
  { Label := label
    Key := base64Encode tPub2
    Roles := ["creator"]
    LabelSignature := base64Encode (tPub2 ++ strBytes label) }

/-- A small invoice authored by `alice`, with no parcels and no
signatures. -/
def tInv : Invoice :=
  { Bindle := { Name := "n", Version := "v", Authors := ["alice"] }
    Parcel := []
    Signature := [] }

/-- C5: `GenerateSignature` checks its preconditions in a fixed order with
the first failure short-circuiting: `InvalidRole` exactly when the role is
outside the fixed vocabulary; `SignatureKeyRoleMismatch` exactly when the
role is valid but the key lacks it; `AuthorNotExist` exactly when role and
key capability hold but the author is not on the invoice. -/
theorem generateSignature_precondition_order (i : Invoice)
    (author role : String) (key : SignatureKey) (priv : Bytes) (now : Int) :
    ((i.GenerateSignature author role key priv now).1 = .err .invalidRole ↔
      ValidRoles role = false) ∧
    ((i.GenerateSignature author role key priv now).1 =
        .err .signatureKeyRoleMismatch ↔
      ValidRoles role = true ∧ key.IncludesRole role = false) ∧
    ((i.GenerateSignature author role key priv now).1 = .err .authorNotExist ↔
      ValidRoles role = true ∧ key.IncludesRole role = true ∧
        i.IsAuthoredBy author = false) := by
  by_cases h1 : ValidRoles role = true
  · by_cases h2 : key.IncludesRole role = true
    · by_cases h3 : i.IsAuthoredBy author = true
      · by_cases h4 : priv.length = 64
        · cases h5 : base64Decode key.Key with
          | none =>
            rw [genSig_decodeErr i author role key priv now h1 h2 h3 h4 h5]
            simp [h1, h2, h3]
          | some pk =>
            rw [genSig_ok i author role key priv now pk h1 h2 h3 h4 h5]
            simp [h1, h2, h3]
        · rw [genSig_panic i author role key priv now h1 h2 h3 h4]
          simp [h1, h2, h3]
      · rw [genSig_authorNotExist i author role key priv now h1 h2
          (Bool.not_eq_true _ ▸ h3)]
        simp [h1, h2, Bool.not_eq_true _ ▸ h3]
    · rw [genSig_roleMismatch i author role key priv now h1
        (Bool.not_eq_true _ ▸ h2)]
      simp [h1, Bool.not_eq_true _ ▸ h2]
  · rw [genSig_invalidRole i author role key priv now (Bool.not_eq_true _ ▸ h1)]
    simp [Bool.not_eq_true _ ▸ h1]

/-- C6: `GenerateSignature` is atomic and frame-preserving: on every
failure path (errors and the panic) the invoice is unchanged; on success
exactly one record with the requested author, role and timestamp is
appended at the end of the signature list, and `Bindle` and `Parcel` are
untouched. -/
theorem generateSignature_frame (i : Invoice) (author role : String)
    (key : SignatureKey) (priv : Bytes) (now : Int) :
    ((i.GenerateSignature author role key priv now).1 ≠ .ok →
      (i.GenerateSignature author role key priv now).2 = i) ∧
    ((i.GenerateSignature author role key priv now).1 = .ok →
      ∃ rec : GoBindle.Signature,
        (i.GenerateSignature author role key priv now).2.Bindle = i.Bindle ∧
        (i.GenerateSignature author role key priv now).2.Parcel = i.Parcel ∧
        (i.GenerateSignature author role key priv now).2.Signature =
          i.Signature ++ [rec] ∧
        rec.By = author ∧ rec.Role = role ∧ rec.At = now) := by
  by_cases h1 : ValidRoles role = true
  · by_cases h2 : key.IncludesRole role = true
    · by_cases h3 : i.IsAuthoredBy author = true
      · by_cases h4 : priv.length = 64
        · cases h5 : base64Decode key.Key with
          | none =>
            rw [genSig_decodeErr i author role key priv now h1 h2 h3 h4 h5]
            exact ⟨fun _ => rfl, fun h => by cases h⟩
          | some pk =>
            rw [genSig_ok i author role key priv now pk h1 h2 h3 h4 h5]
            refine ⟨fun h => absurd rfl h, fun _ => ⟨_, rfl, rfl, rfl, rfl, rfl, rfl⟩⟩
        · rw [genSig_panic i author role key priv now h1 h2 h3 h4]
          exact ⟨fun _ => rfl, fun h => by cases h⟩
      · rw [genSig_authorNotExist i author role key priv now h1 h2
          (Bool.not_eq_true _ ▸ h3)]
        exact ⟨fun _ => rfl, fun h => by cases h⟩
    · rw [genSig_roleMismatch i author role key priv now h1
        (Bool.not_eq_true _ ▸ h2)]
      exact ⟨fun _ => rfl, fun h => by cases h⟩
  · rw [genSig_invalidRole i author role key priv now (Bool.not_eq_true _ ▸ h1)]
    exact ⟨fun _ => rfl, fun h => by cases h⟩

/-- Witness for C6 at a concrete successful call: the resulting invoice is
the old one plus exactly one record by `alice` in role `creator`. -/
theorem generateSignature_frame_witness :
    ∃ rec : GoBindle.Signature,
      (tInv.GenerateSignature "alice" "creator" (tKey "alice") tPriv 7).2.Bindle =
        tInv.Bindle ∧
      (tInv.GenerateSignature "alice" "creator" (tKey "alice") tPriv 7).2.Parcel =
        tInv.Parcel ∧
      (tInv.GenerateSignature "alice" "creator" (tKey "alice") tPriv 7).2.Signature =
        tInv.Signature ++ [rec] ∧
      rec.By = "alice" ∧ rec.Role = "creator" ∧ rec.At = 7 :=
  (generateSignature_frame tInv "alice" "creator" (tKey "alice") tPriv 7).2
    (by decide)

/-- C9: `VerifySignatures` performs no mutation: the invoice after the
call is the invoice before it, on success and on failure alike, and a
repeated call on the resulting invoice returns the same result. -/
theorem verifySignatures_no_mutation (i : Invoice) (ks : List SignatureKey) :
    (i.VerifySignatures ks).2 = i ∧
    ((i.VerifySignatures ks).2).VerifySignatures ks = i.VerifySignatures ks := by
  have h : (i.VerifySignatures ks).2 = i := by
    unfold Invoice.VerifySignatures
    cases collectKeys ks [] <;> rfl
  exact ⟨h, by rw [h]⟩

/-! Decidable characterizations of the two verification phases. -/

/-- Does a supplied key self-certify: both base64 fields decode and the
label signature verifies against the key's own public key over its own
label. -/
def keyCertB (k : SignatureKey) : Bool :=
  match base64Decode k.Key, base64Decode k.LabelSignature with
  | some kb, some lb => edVerify kb (strBytes k.Label) lb == some true
  | _, _ => false

/-- Does the stored record `s` verify against the key `key`: the key
carries the record's role, both base64 fields decode, and the signature
validates against the canonical text rebuilt from the key's label and the
record's role. -/
def recordAgainstKey (i : Invoice) (key : SignatureKey)
    (s : GoBindle.Signature) : Bool :=
  key.IncludesRole s.Role &&
    match base64Decode key.Key, base64Decode s.Signature with
    | some kb, some sb =>
        edVerify kb (strBytes (i.generateCleartext key.Label s.Role)) sb ==
          some true
    | _, _ => false

/-- The last supplied key carrying a given label (the one a Go map keyed
by label retains). -/
def lastKeyFor (ks : List SignatureKey) (label : String) : Option SignatureKey :=
  ks.reverse.find? (fun k => k.Label == label)

/-- One Phase-2 step, phrased against the built key index. -/
def sigStepB (i : Invoice) (m : KeyMap) (s : GoBindle.Signature) : Bool :=
  match mapLookup m s.By with
  | none => false
  | some key => recordAgainstKey i key s

/-- One Phase-2 step, phrased against the supplied key list directly: the
record must verify against the last supplied key whose label is the
record's `By`. -/
def sigRecordB (i : Invoice) (ks : List SignatureKey)
    (s : GoBindle.Signature) : Bool :=
  match lastKeyFor ks s.By with
  | none => false
  | some key => recordAgainstKey i key s

theorem keyCertB_iff (k : SignatureKey) :
    keyCertB k = true ↔
      ∃ kb lb, base64Decode k.Key = some kb ∧
        base64Decode k.LabelSignature = some lb ∧
        edVerify kb (strBytes k.Label) lb = some true := by
  unfold keyCertB
  cases hK : base64Decode k.Key <;>
    cases hL : base64Decode k.LabelSignature <;>
      simp [hK, hL]

theorem mapLookup_insert (m : KeyMap) (label l : String) (k : SignatureKey) :
    mapLookup (mapInsert m label k) l =
      if label == l then some k else mapLookup m l := by
  unfold mapInsert mapLookup
  by_cases h : (label == l) = true <;> simp [List.find?_cons, h]

theorem lastKeyFor_cons (k : SignatureKey) (ks : List SignatureKey) (l : String) :
    lastKeyFor (k :: ks) l =
      match lastKeyFor ks l with
      | some k' => some k'
      | none => if k.Label == l then some k else none := by
  unfold lastKeyFor
  rw [List.reverse_cons, List.find?_append]
  cases hR : ks.reverse.find? (fun k => k.Label == l) with
  | some k' => rfl
  | none =>
    by_cases h : (k.Label == l) = true <;> simp [List.find?_cons, h, Option.or]

theorem collectKeys_lookup :
    ∀ (ks : List SignatureKey) (acc m : KeyMap),
      collectKeys ks acc = .inr m →
      ∀ l, mapLookup m l =
        match lastKeyFor ks l with
        | some k => some k
        | none => mapLookup acc l
  | [], acc, m => by
    intro h l
    have hm : acc = m := by
      simpa [collectKeys] using h
    subst hm
    simp [lastKeyFor, List.find?]
  | key :: rest, acc, m => by
    intro h l
    unfold collectKeys at h
    cases hK : base64Decode key.Key with
    | none => simp [hK] at h
    | some kb =>
      cases hL : base64Decode key.LabelSignature with
      | none => simp [hK, hL] at h
      | some lb =>
        cases hV : edVerify kb (strBytes key.Label) lb with
        | none => simp [hK, hL, hV] at h
        | some valid =>
          cases valid with
          | false => simp [hK, hL, hV] at h
          | true =>
            simp only [hK, hL, hV, if_true] at h
            have ih := collectKeys_lookup rest (mapInsert acc key.Label key) m h l
            rw [lastKeyFor_cons]
            cases hR : lastKeyFor rest l with
            | some k' => rw [ih, hR]
            | none =>
              rw [ih, hR, mapLookup_insert]
              by_cases hE : (key.Label == l) = true <;> simp [hE]

theorem collectKeys_inl_result :
    ∀ (ks : List SignatureKey) (acc : KeyMap) (r : GoResult),
      collectKeys ks acc = .inl r →
      r = .err .decodeError ∨ r = .err .invalidSignatureKey ∨ r = .panicked
  | [], acc, r => by
    intro h
    simp [collectKeys] at h
  | key :: rest, acc, r => by
    intro h
    unfold collectKeys at h
    cases hK : base64Decode key.Key with
    | none => simp [hK] at h; simp [← h]
    | some kb =>
      cases hL : base64Decode key.LabelSignature with
      | none => simp [hK, hL] at h; simp [← h]
      | some lb =>
        cases hV : edVerify kb (strBytes key.Label) lb with
        | none => simp [hK, hL, hV] at h; simp [← h]
        | some valid =>
          cases valid with
          | false => simp [hK, hL, hV] at h; simp [← h]
          | true =>
            simp only [hK, hL, hV, if_true] at h
            exact collectKeys_inl_result rest (mapInsert acc key.Label key) r h

theorem collectKeys_inr_certB :
    ∀ (ks : List SignatureKey) (acc m : KeyMap),
      collectKeys ks acc = .inr m → ∀ k ∈ ks, keyCertB k = true
  | [], _, _ => by
    intro _ k hk
    cases hk
  | key :: rest, acc, m => by
    intro h k hk
    unfold collectKeys at h
    cases hK : base64Decode key.Key with
    | none => simp [hK] at h
    | some kb =>
      cases hL : base64Decode key.LabelSignature with
      | none => simp [hK, hL] at h
      | some lb =>
        cases hV : edVerify kb (strBytes key.Label) lb with
        | none => simp [hK, hL, hV] at h
        | some valid =>
          cases valid with
          | false => simp [hK, hL, hV] at h
          | true =>
            simp only [hK, hL, hV, if_true] at h
            cases hk with
            | head =>
              exact (keyCertB_iff key).mpr ⟨kb, lb, hK, hL, hV⟩
            | tail _ hk' =>
              exact collectKeys_inr_certB rest (mapInsert acc key.Label key) m h k hk'

theorem collectKeys_certB_inr :
    ∀ (ks : List SignatureKey) (acc : KeyMap),
      (∀ k ∈ ks, keyCertB k = true) →
      ∃ m, collectKeys ks acc = .inr m
  | [], acc => fun _ => ⟨acc, rfl⟩
  | key :: rest, acc => by
    intro h
    rcases (keyCertB_iff key).mp (h key (List.mem_cons_self key rest)) with
      ⟨kb, lb, hK, hL, hV⟩
    rcases collectKeys_certB_inr rest (mapInsert acc key.Label key)
      (fun k hk => h k (List.mem_cons_of_mem key hk)) with ⟨m, hm⟩
    exact ⟨m, by simp [collectKeys, hK, hL, hV, hm]⟩

theorem collectKeys_firstBad :
    ∀ (pre : List SignatureKey) (key : SignatureKey)
      (post : List SignatureKey) (acc : KeyMap) (kb lb : Bytes),
      (∀ k ∈ pre, keyCertB k = true) →
      base64Decode key.Key = some kb →
      base64Decode key.LabelSignature = some lb →
      edVerify kb (strBytes key.Label) lb = some false →
      collectKeys (pre ++ key :: post) acc = .inl (.err .invalidSignatureKey)
  | [], key, post, acc, kb, lb => by
    intro _ hK hL hV
    simp [collectKeys, hK, hL, hV]
  | k' :: pre', key, post, acc, kb, lb => by
    intro hpre hK hL hV
    rcases (keyCertB_iff k').mp (hpre k' (List.mem_cons_self k' pre')) with
      ⟨kb', lb', hK', hL', hV'⟩
    have ih := collectKeys_firstBad pre' key post
      (mapInsert acc k'.Label k') kb lb
      (fun k hk => hpre k (List.mem_cons_of_mem k' hk)) hK hL hV
    simp [collectKeys, hK', hL', hV', ih]

theorem sigStepB_iff (i : Invoice) (m : KeyMap) (s : GoBindle.Signature) :
    sigStepB i m s = true ↔
      ∃ key kb sb, mapLookup m s.By = some key ∧
        key.IncludesRole s.Role = true ∧
        base64Decode key.Key = some kb ∧
        base64Decode s.Signature = some sb ∧
        edVerify kb (strBytes (i.generateCleartext key.Label s.Role)) sb =
          some true := by
  unfold sigStepB recordAgainstKey
  cases hM : mapLookup m s.By with
  | none => simp [hM]
  | some key =>
    cases hK : base64Decode key.Key <;>
      cases hS : base64Decode s.Signature <;>
        simp [hM, hK, hS, and_assoc]

theorem checkSigs_cons_pass (i : Invoice) (m : KeyMap)
    (s : GoBindle.Signature) (rest : List GoBindle.Signature)
    (h : sigStepB i m s = true) :
    checkSigs i m (s :: rest) = checkSigs i m rest := by
  rcases (sigStepB_iff i m s).mp h with ⟨key, kb, sb, hM, hR, hK, hS, hV⟩
  simp [checkSigs, hM, hR, hK, hS, hV]

theorem checkSigs_ok_head (i : Invoice) (m : KeyMap)
    (s : GoBindle.Signature) (rest : List GoBindle.Signature)
    (h : checkSigs i m (s :: rest) = .ok) :
    sigStepB i m s = true ∧ checkSigs i m rest = .ok := by
  unfold checkSigs at h
  cases hM : mapLookup m s.By with
  | none => simp [hM] at h
  | some key =>
    by_cases hR : key.IncludesRole s.Role = true
    · cases hK : base64Decode key.Key with
      | none => simp [hM, hR, hK] at h
      | some kb =>
        cases hS : base64Decode s.Signature with
        | none => simp [hM, hR, hK, hS] at h
        | some sb =>
          cases hV : edVerify kb
              (strBytes (i.generateCleartext key.Label s.Role)) sb with
          | none => simp [hM, hR, hK, hS, hV] at h
          | some valid =>
            cases valid with
            | false => simp [hM, hR, hK, hS, hV] at h
            | true =>
              simp only [hM, hR, hK, hS, hV, not_true, if_true, if_false] at h
              refine ⟨(sigStepB_iff i m s).mpr ⟨key, kb, sb, hM, hR, hK, hS, hV⟩, ?_⟩
              simpa using h
    · have hR' : key.IncludesRole s.Role = false := by
        simpa using hR
      simp [hM, hR'] at h

theorem checkSigs_ok_iff (i : Invoice) (m : KeyMap) :
    ∀ sigs : List GoBindle.Signature,
      checkSigs i m sigs = .ok ↔ ∀ s ∈ sigs, sigStepB i m s = true
  | [] => by simp [checkSigs]
  | s :: rest => by
    constructor
    · intro h
      rcases checkSigs_ok_head i m s rest h with ⟨h1, h2⟩
      intro t ht
      cases ht with
      | head => exact h1
      | tail _ ht' => exact (checkSigs_ok_iff i m rest).mp h2 t ht'
    · intro h
      rw [checkSigs_cons_pass i m s rest (h s (List.mem_cons_self s rest))]
      exact (checkSigs_ok_iff i m rest).mpr
        (fun t ht => h t (List.mem_cons_of_mem s ht))

theorem checkSigs_append_pass (i : Invoice) (m : KeyMap) :
    ∀ (pre rest : List GoBindle.Signature),
      (∀ t ∈ pre, sigStepB i m t = true) →
      checkSigs i m (pre ++ rest) = checkSigs i m rest
  | [], rest, _ => rfl
  | s :: pre', rest, h => by
    rw [List.cons_append,
      checkSigs_cons_pass i m s (pre' ++ rest) (h s (List.mem_cons_self s pre'))]
    exact checkSigs_append_pass i m pre' rest
      (fun t ht => h t (List.mem_cons_of_mem s ht))

theorem checkSigs_cons_missing (i : Invoice) (m : KeyMap)
    (s : GoBindle.Signature) (rest : List GoBindle.Signature)
    (h : mapLookup m s.By = none) :
    checkSigs i m (s :: rest) = .err .missingSignatureKey := by
  simp [checkSigs, h]

theorem checkSigs_cons_mismatch (i : Invoice) (m : KeyMap)
    (s : GoBindle.Signature) (rest : List GoBindle.Signature)
    (key : SignatureKey) (hM : mapLookup m s.By = some key)
    (hR : key.IncludesRole s.Role = false) :
    checkSigs i m (s :: rest) = .err .signatureKeyRoleMismatch := by
  simp [checkSigs, hM, hR]

theorem checkSigs_cons_badsig (i : Invoice) (m : KeyMap)
    (s : GoBindle.Signature) (rest : List GoBindle.Signature)
    (key : SignatureKey) (kb sb : Bytes)
    (hM : mapLookup m s.By = some key)
    (hR : key.IncludesRole s.Role = true)
    (hK : base64Decode key.Key = some kb)
    (hS : base64Decode s.Signature = some sb)
    (hV : edVerify kb (strBytes (i.generateCleartext key.Label s.Role)) sb =
      some false) :
    checkSigs i m (s :: rest) = .err .invalidSignature := by
  simp [checkSigs, hM, hR, hK, hS, hV]

theorem sigStepB_eq_sigRecordB (i : Invoice) (ks : List SignatureKey)
    (m : KeyMap) (hm : collectKeys ks [] = .inr m) (s : GoBindle.Signature) :
    sigStepB i m s = sigRecordB i ks s := by
  have h := collectKeys_lookup ks [] m hm s.By
  have h0 : mapLookup ([] : KeyMap) s.By = none := rfl
  rw [h0] at h
  unfold sigStepB sigRecordB
  cases hR : lastKeyFor ks s.By with
  | none => rw [hR] at h; rw [h]
  | some key => rw [hR] at h; rw [h]

theorem lastKeyFor_label (ks : List SignatureKey) (l : String)
    (key : SignatureKey) (h : lastKeyFor ks l = some key) :
    key.Label = l := by
  have := List.find?_some h
  exact eq_of_beq this

theorem mapLookup_label (ks : List SignatureKey) (m : KeyMap)
    (hm : collectKeys ks [] = .inr m) (l : String) (key : SignatureKey)
    (h : mapLookup m l = some key) : key.Label = l := by
  have hl := collectKeys_lookup ks [] m hm l
  have h0 : mapLookup ([] : KeyMap) l = none := rfl
  rw [h0] at hl
  cases hR : lastKeyFor ks l with
  | none => rw [hR] at hl; rw [hl] at h; cases h
  | some k' =>
    rw [hR] at hl
    rw [hl] at h
    cases h
    exact lastKeyFor_label ks l key hR

theorem mapLookup_eq_lastKeyFor (ks : List SignatureKey) (m : KeyMap)
    (hm : collectKeys ks [] = .inr m) (l : String) :
    mapLookup m l = lastKeyFor ks l := by
  have h := collectKeys_lookup ks [] m hm l
  have h0 : mapLookup ([] : KeyMap) l = none := rfl
  rw [h0] at h
  cases hR : lastKeyFor ks l with
  | none => simp [hR] at h; rw [h]
  | some k => simp [hR] at h; rw [h]

/-- A key whose base64 fields are well-formed but whose self-certificate
does not verify (it certifies the wrong text). -/
def tBadKey : SignatureKey :=
  { Label := "bob"
    Key := base64Encode tPub
    Roles := ["creator"]
    LabelSignature := base64Encode (tPub ++ strBytes "evil") }

/-- C4: a failed self-certificate aborts the whole verification with
`InvalidSignatureKey` even when every other key is valid; the index built
in Phase 1 keeps, for each label, the last supplied key with that label
(duplicates are not rejected). -/
theorem invalid_key_aborts_and_last_wins (i : Invoice) :
    (∀ (pre post : List SignatureKey) (key : SignatureKey) (kb lb : Bytes),
      (∀ k ∈ pre, keyCertB k = true) →
      base64Decode key.Key = some kb →
      base64Decode key.LabelSignature = some lb →
      edVerify kb (strBytes key.Label) lb = some false →
      (i.VerifySignatures (pre ++ key :: post)).1 = .err .invalidSignatureKey) ∧
    (∀ (ks : List SignatureKey) (m : KeyMap), collectKeys ks [] = .inr m →
      ∀ l, mapLookup m l = lastKeyFor ks l) ∧
    (∀ ks : List SignatureKey, (∀ k ∈ ks, keyCertB k = true) →
      ∃ m, collectKeys ks [] = Sum.inr m) := by
  refine ⟨?_, ?_, ?_⟩
  · intro pre post key kb lb hpre hK hL hV
    have h := collectKeys_firstBad pre key post [] kb lb hpre hK hL hV
    unfold Invoice.VerifySignatures
    rw [h]
  · intro ks m hm l
    exact mapLookup_eq_lastKeyFor ks m hm l
  · intro ks h
    exact collectKeys_certB_inr ks [] h

/-- Witness for C4: one good key then a key with a failing self-certificate
yields `InvalidSignatureKey`; two self-certifying keys sharing the label
`L` are both accepted, and the second one is the one indexed. -/
theorem invalid_key_aborts_and_last_wins_witness :
    (tInv.VerifySignatures ([tKey "alice"] ++ tBadKey :: [])).1 =
      .err .invalidSignatureKey ∧
    mapLookup [("L", tKey2 "L"), ("L", tKey "L")] "L" =
      lastKeyFor [tKey "L", tKey2 "L"] "L" ∧
    lastKeyFor [tKey "L", tKey2 "L"] "L" = some (tKey2 "L") ∧
    (∃ m, collectKeys [tKey "L", tKey2 "L"] [] = Sum.inr m) := by
  refine ⟨?_, ?_, by decide, ?_⟩
  · exact (invalid_key_aborts_and_last_wins tInv).1 [tKey "alice"] [] tBadKey
      tPub (tPub ++ strBytes "evil") (by decide) (by decide) (by decide)
      (by decide)
  · exact (invalid_key_aborts_and_last_wins tInv).2.1 [tKey "L", tKey2 "L"]
      [("L", tKey2 "L"), ("L", tKey "L")] (by decide) "L"
  · exact (invalid_key_aborts_and_last_wins tInv).2.2 [tKey "L", tKey2 "L"]
      (by decide)

/-- A bare signature record by `alice` (only `By` matters for lookup). -/
def tRec : GoBindle.Signature :=
  { By := "alice", Signature := "", Key := "", Role := "creator", At := 0 }

/-- C8: any key found in the Phase-1 index under a record's `By` has that
very string as its label, so the canonical text rebuilt from the key's
label coincides with the one rebuilt from the record's `By`. -/
theorem phase2_author_identity_equiv (i : Invoice) (ks : List SignatureKey)
    (m : KeyMap) (s : GoBindle.Signature) (key : SignatureKey)
    (hm : collectKeys ks [] = .inr m) (hl : mapLookup m s.By = some key) :
    key.Label = s.By ∧
    i.generateCleartext key.Label s.Role = i.generateCleartext s.By s.Role := by
  have h := mapLookup_label ks m hm s.By key hl
  exact ⟨h, by rw [h]⟩

/-- Witness for C8 at a concrete index built from one key. -/
theorem phase2_author_identity_equiv_witness :
    (tKey "alice").Label = tRec.By ∧
    tInv.generateCleartext (tKey "alice").Label tRec.Role =
      tInv.generateCleartext tRec.By tRec.Role :=
  phase2_author_identity_equiv tInv [tKey "alice"]
    [("alice", tKey "alice")] tRec (tKey "alice") (by decide) (by decide)

/-- The bindle block used in the C3 scenarios: authored by `L`. -/
def c3Base : Invoice :=
  { Bindle := { Name := "n", Version := "v", Authors := ["L"] }
    Parcel := []
    Signature := [] }

/-- A record by `L` in role `creator`, signed with `tPriv` (so it verifies
against `tKey "L"`, not against `tKey2 "L"`). -/
def c3Rec : GoBindle.Signature :=
  { By := "L"
    Signature := base64Encode (tPub ++ strBytes (c3Base.generateCleartext "L" "creator"))
    Key := ""
    Role := "creator"
    At := 0 }

/-- The C3 invoice: `c3Base` carrying the single record `c3Rec`. -/
def c3Inv : Invoice := { c3Base with Signature := [c3Rec] }

/-- C3 (amended): `VerifySignatures` returns `nil` iff every supplied key
self-certifies and every stored record verifies against the key indexed
for its `By` — the last supplied key with that label; and, once Phase 1
passes, the first failing record aborts the call with its specific error:
`MissingSignatureKey` when no supplied key carries the record's `By` as
label, `SignatureKeyRoleMismatch` when the indexed key lacks the record's
role, and `InvalidSignature` when the cryptographic check fails. -/
theorem verifySignatures_ok_characterization (i : Invoice)
    (ks : List SignatureKey) :
    ((i.VerifySignatures ks).1 = .ok ↔
      ((∀ k ∈ ks, keyCertB k = true) ∧
       (∀ s ∈ i.Signature, sigRecordB i ks s = true))) ∧
    (∀ (pre post : List GoBindle.Signature) (s : GoBindle.Signature),
      (∀ k ∈ ks, keyCertB k = true) →
      i.Signature = pre ++ s :: post →
      (∀ t ∈ pre, sigRecordB i ks t = true) →
      ((lastKeyFor ks s.By = none →
         (i.VerifySignatures ks).1 = .err .missingSignatureKey) ∧
       (∀ key, lastKeyFor ks s.By = some key →
         key.IncludesRole s.Role = false →
         (i.VerifySignatures ks).1 = .err .signatureKeyRoleMismatch) ∧
       (∀ key kb sb, lastKeyFor ks s.By = some key →
         key.IncludesRole s.Role = true →
         base64Decode key.Key = some kb →
         base64Decode s.Signature = some sb →
         edVerify kb (strBytes (i.generateCleartext key.Label s.Role)) sb =
           some false →
         (i.VerifySignatures ks).1 = .err .invalidSignature))) := by
  constructor
  · constructor
    · intro h
      cases hC : collectKeys ks [] with
      | inl r =>
        unfold Invoice.VerifySignatures at h
        rw [hC] at h
        have hr := collectKeys_inl_result ks [] r hC
        have : r = GoResult.ok := h
        rcases hr with h' | h' | h' <;> rw [h'] at this <;> cases this
      | inr m =>
        unfold Invoice.VerifySignatures at h
        rw [hC] at h
        have h' : checkSigs i m i.Signature = .ok := h
        refine ⟨collectKeys_inr_certB ks [] m hC, ?_⟩
        intro s hs
        rw [← sigStepB_eq_sigRecordB i ks m hC s]
        exact (checkSigs_ok_iff i m i.Signature).mp h' s hs
    · rintro ⟨h1, h2⟩
      rcases collectKeys_certB_inr ks [] h1 with ⟨m, hm⟩
      have hVS : (i.VerifySignatures ks).1 = checkSigs i m i.Signature := by
        unfold Invoice.VerifySignatures
        rw [hm]
      rw [hVS]
      exact (checkSigs_ok_iff i m i.Signature).mpr
        (fun s hs => by
          rw [sigStepB_eq_sigRecordB i ks m hm s]
          exact h2 s hs)
  · intro pre post s hkeys hsplit hpre
    rcases collectKeys_certB_inr ks [] hkeys with ⟨m, hm⟩
    have hVS : (i.VerifySignatures ks).1 = checkSigs i m i.Signature := by
      unfold Invoice.VerifySignatures
      rw [hm]
    have hskip : checkSigs i m i.Signature = checkSigs i m (s :: post) := by
      rw [hsplit]
      exact checkSigs_append_pass i m pre (s :: post)
        (fun t ht => by
          rw [sigStepB_eq_sigRecordB i ks m hm t]
          exact hpre t ht)
    have hlk : ∀ l, mapLookup m l = lastKeyFor ks l :=
      mapLookup_eq_lastKeyFor ks m hm
    refine ⟨?_, ?_, ?_⟩
    · intro hnone
      rw [hVS, hskip, checkSigs_cons_missing i m s post (by rw [hlk]; exact hnone)]
    · intro key hsome hrole
      rw [hVS, hskip,
        checkSigs_cons_mismatch i m s post key (by rw [hlk]; exact hsome) hrole]
    · intro key kb sb hsome hrole hK hS hV
      rw [hVS, hskip,
        checkSigs_cons_badsig i m s post key kb sb (by rw [hlk]; exact hsome)
          hrole hK hS hV]

/-- C3 counterexample to the claim as stated: two self-certifying keys
share the label `L`, and the stored record verifies against the earlier
one (so it verifies "against some supplied key whose Label equals By and
whose role set includes Role"), yet the call fails, because the index
kept only the later key. -/
theorem verifySignatures_some_key_reading_cex :
    (∀ k ∈ [tKey "L", tKey2 "L"], keyCertB k = true) ∧
    (∀ s ∈ c3Inv.Signature, ∃ k ∈ [tKey "L", tKey2 "L"],
      k.Label = s.By ∧ k.IncludesRole s.Role = true ∧
      recordAgainstKey c3Inv k s = true) ∧
    (c3Inv.VerifySignatures [tKey "L", tKey2 "L"]).1 ≠ .ok := by
  refine ⟨by decide, by decide, by decide⟩

/-- Witness for C3 at two concrete calls: a record whose author has no
supplied key fails with `MissingSignatureKey`, and an invoice whose checks
all pass verifies to `nil`. -/
theorem verifySignatures_ok_characterization_witness :
    ((c3Inv.VerifySignatures [tKey "alice"]).1 = .err .missingSignatureKey) ∧
    ((tInv.VerifySignatures [tKey "alice"]).1 = .ok) := by
  constructor
  · exact ((verifySignatures_ok_characterization c3Inv [tKey "alice"]).2
      [] [] c3Rec (by decide) rfl (by decide)).1 (by decide)
  · exact (verifySignatures_ok_characterization tInv [tKey "alice"]).1.mpr
      ⟨by decide, by decide⟩

theorem generateCleartext_ignores_signatures (i : Invoice)
    (sigs : List GoBindle.Signature) (author role : String) :
    ({ i with Signature := sigs } : Invoice).generateCleartext author role =
      i.generateCleartext author role := rfl

/-- C2 (amended): signing and then verifying with the very same key
succeeds, provided the key's label is the author being signed for and the
invoice carried no prior signature records: if `GenerateSignature`
succeeds and the key's self-certificate is valid for the matching key
pair, `VerifySignatures` with just that key returns `nil`. -/
theorem sign_then_verify (i : Invoice) (author role : String)
    (key : SignatureKey) (priv ls : Bytes) (now : Int)
    (hlabel : key.Label = author)
    (hsig0 : i.Signature = [])
    (hkey : base64Decode key.Key = some (priv.drop 32))
    (hls : base64Decode key.LabelSignature = some ls)
    (hcert : edVerify (priv.drop 32) (strBytes key.Label) ls = some true)
    (hok : (i.GenerateSignature author role key priv now).1 = .ok) :
    (((i.GenerateSignature author role key priv now).2).VerifySignatures
      [key]).1 = .ok := by
  have h1 : ValidRoles role = true := by
    by_contra h
    rw [genSig_invalidRole i author role key priv now (by simpa using h)] at hok
    cases hok
  have h2 : key.IncludesRole role = true := by
    by_contra h
    rw [genSig_roleMismatch i author role key priv now h1 (by simpa using h)]
      at hok
    cases hok
  have h3 : i.IsAuthoredBy author = true := by
    by_contra h
    rw [genSig_authorNotExist i author role key priv now h1 h2
      (by simpa using h)] at hok
    cases hok
  have h4 : priv.length = 64 := by
    by_contra h
    rw [genSig_panic i author role key priv now h1 h2 h3 h] at hok
    cases hok
  have hlen : (priv.drop 32).length = 32 := by
    rw [List.length_drop, h4]
  rw [genSig_ok i author role key priv now (priv.drop 32) h1 h2 h3 h4 hkey]
  have hcollect : collectKeys [key] [] = .inr [(key.Label, key)] := by
    simp [collectKeys, hkey, hls, hcert, mapInsert]
  have hVS : ∀ j : Invoice, (j.VerifySignatures [key]).1 =
      checkSigs j [(key.Label, key)] j.Signature := by
    intro j
    unfold Invoice.VerifySignatures
    rw [hcollect]
  rw [hVS]
  rw [hsig0]
  have hlookup : mapLookup [(key.Label, key)] author = some key := by
    simp [mapLookup, List.find?_cons, hlabel]
  have hstep : sigStepB
      ({ i with Signature :=
        [{ By := author
           Signature := base64Encode (priv.drop 32 ++
             strBytes (i.generateCleartext author role))
           Key := base64Encode (priv.drop 32)
           Role := role
           At := now }] } : Invoice)
      [(key.Label, key)]
      { By := author
        Signature := base64Encode (priv.drop 32 ++
          strBytes (i.generateCleartext author role))
        Key := base64Encode (priv.drop 32)
        Role := role
        At := now } = true := by
    apply (sigStepB_iff _ _ _).mpr
    refine ⟨key, priv.drop 32,
      priv.drop 32 ++ strBytes (i.generateCleartext author role),
      hlookup, h2, hkey, base64_roundtrip _, ?_⟩
    have hclear :
        ({ i with Signature :=
          [{ By := author
             Signature := base64Encode (priv.drop 32 ++
               strBytes (i.generateCleartext author role))
             Key := base64Encode (priv.drop 32)
             Role := role
             At := now }] } : Invoice).generateCleartext key.Label role =
          i.generateCleartext author role := by
      rw [hlabel]
      exact generateCleartext_ignores_signatures i _ author role
    rw [hclear]
    unfold edVerify
    rw [if_pos hlen]
    simp
  rw [List.nil_append]
  rw [checkSigs_cons_pass _ _ _ _ hstep]
  rfl

/-- Witness for C2 at a concrete key pair and invoice. -/
theorem sign_then_verify_witness :
    (((tInv.GenerateSignature "alice" "creator" (tKey "alice") tPriv 0).2).VerifySignatures
      [tKey "alice"]).1 = .ok :=
  sign_then_verify tInv "alice" "creator" (tKey "alice") tPriv
    (tPub ++ strBytes "alice") 0 (by decide) (by decide) (by decide)
    (by decide) (by decide) (by decide)

/-- C2 counterexample to the claim as stated: the key's label (`bob`)
differs from the author (`alice`); signing succeeds and the key
self-certifies, yet verification fails with `MissingSignatureKey`, so
sign-then-verify does not return `nil` for every invoice and key. -/
theorem sign_then_verify_cex :
    keyCertB (tKey "bob") = true ∧
    (tInv.GenerateSignature "alice" "creator" (tKey "bob") tPriv 0).1 = .ok ∧
    (((tInv.GenerateSignature "alice" "creator" (tKey "bob") tPriv 0).2).VerifySignatures
      [tKey "bob"]).1 = .err .missingSignatureKey := by
  refine ⟨by decide, by decide, by decide⟩

/-- A 63-byte private key (one byte short). -/
def shortPriv : Bytes := List.replicate 63 0

/-- A key whose base64 fields are well-formed but whose public key decodes
to 31 bytes. -/
def shortKey : SignatureKey :=
  { Label := "x"
    Key := base64Encode (List.replicate 31 1)
    Roles := ["creator"]
    LabelSignature := base64Encode [] }

/-- C10: wrong-length key material panics instead of returning an error:
`GenerateSignature` panics (via `ed25519.Sign`) when the raw private key
is not exactly 64 bytes even though all preconditions hold, and
`VerifySignatures` panics (via `ed25519.Verify`) when a supplied key's
`Key` field decodes — as well-formed base64 — to a byte string whose
length is not 32. -/
theorem wrong_length_key_panics :
    (∀ (i : Invoice) (author role : String) (key : SignatureKey)
      (priv : Bytes) (now : Int),
      ValidRoles role = true → key.IncludesRole role = true →
      i.IsAuthoredBy author = true → priv.length ≠ 64 →
      (i.GenerateSignature author role key priv now).1 = .panicked) ∧
    (∀ (i : Invoice) (key : SignatureKey) (rest : List SignatureKey)
      (kb lb : Bytes),
      base64Decode key.Key = some kb →
      base64Decode key.LabelSignature = some lb →
      kb.length ≠ 32 →
      (i.VerifySignatures (key :: rest)).1 = .panicked) := by
  constructor
  · intro i author role key priv now h1 h2 h3 h4
    rw [genSig_panic i author role key priv now h1 h2 h3 h4]
  · intro i key rest kb lb hK hL hlen
    have hV : edVerify kb (strBytes key.Label) lb = none := by
      unfold edVerify
      rw [if_neg hlen]
    unfold Invoice.VerifySignatures
    have hc : collectKeys (key :: rest) [] = .inl .panicked := by
      simp [collectKeys, hK, hL, hV]
    rw [hc]

/-- Witness for C10: a 63-byte private key makes signing panic, and a key
decoding to 31 bytes makes verification panic. -/
theorem wrong_length_key_panics_witness :
    (tInv.GenerateSignature "alice" "creator" (tKey "alice") shortPriv 0).1 =
      .panicked ∧
    (tInv.VerifySignatures [shortKey]).1 = .panicked :=
  ⟨wrong_length_key_panics.1 tInv "alice" "creator" (tKey "alice") shortPriv 0
      (by decide) (by decide) (by decide) (by decide),
   wrong_length_key_panics.2 tInv shortKey [] (List.replicate 31 1) []
      (by decide) (by decide) (by decide)⟩

/-! Injectivity of the newline-join in the parcel digest sequence, for
digest strings free of the separator character. -/

theorem sep_split {c : Char} :
    ∀ (a b x y : List Char), c ∉ a → c ∉ b → a ++ c :: x = b ++ c :: y →
      a = b ∧ x = y
  | [], [], x, y, _, _, h => by
    rw [List.nil_append, List.nil_append] at h
    injection h with _ h2
    exact ⟨rfl, h2⟩
  | [], d :: bs, x, y, _, hb, h => by
    rw [List.nil_append, List.cons_append] at h
    injection h with h1 _
    exact absurd (h1 ▸ List.mem_cons_self d bs) hb
  | e :: as, [], x, y, ha, _, h => by
    rw [List.nil_append, List.cons_append] at h
    injection h with h1 _
    exact absurd (h1 ▸ List.mem_cons_self e as) ha
  | e :: as, d :: bs, x, y, ha, hb, h => by
    rw [List.cons_append, List.cons_append] at h
    injection h with h1 h2
    have ih := sep_split as bs x y
      (fun hm => ha (List.mem_cons_of_mem e hm))
      (fun hm => hb (List.mem_cons_of_mem d hm)) h2
    exact ⟨by rw [h1, ih.1], ih.2⟩

theorem joinC_single (c : Char) (x : List Char) : joinC [c] [x] = x := rfl

theorem joinC_cons_ne (c : Char) (x : List Char) :
    ∀ xs : List (List Char), xs ≠ [] →
      joinC [c] (x :: xs) = x ++ c :: joinC [c] xs
  | [], h => absurd rfl h
  | y :: ys, _ => by
    show x ++ [c] ++ joinC [c] (y :: ys) = x ++ c :: joinC [c] (y :: ys)
    rw [List.append_assoc]
    rfl

theorem mem_joinC_head (c : Char) (b : List Char) (xs : List (List Char))
    (h : xs ≠ []) : c ∈ joinC [c] (b :: xs) := by
  rw [joinC_cons_ne c b xs h]
  exact List.mem_append_right b (List.mem_cons_self c _)

theorem joinC_inj_nonempty (c : Char) :
    ∀ (l1 l2 : List (List Char)), l1 ≠ [] → l2 ≠ [] →
      (∀ x ∈ l1, c ∉ x) → (∀ x ∈ l2, c ∉ x) →
      joinC [c] l1 = joinC [c] l2 → l1 = l2
  | [], _, h1, _, _, _, _ => absurd rfl h1
  | _ :: _, [], _, h2, _, _, _ => absurd rfl h2
  | [a], [b], _, _, _, _, h => by
    rw [joinC_single, joinC_single] at h
    rw [h]
  | [a], b :: b2 :: bs, _, _, ha, _, h => by
    rw [joinC_single] at h
    have hmem : c ∈ a := h ▸ mem_joinC_head c b (b2 :: bs) (by simp)
    exact absurd hmem (ha a (List.mem_cons_self a []))
  | a :: a2 :: as, [b], _, _, _, hb, h => by
    rw [joinC_single] at h
    have hmem : c ∈ b := h ▸ mem_joinC_head c a (a2 :: as) (by simp)
    exact absurd hmem (hb b (List.mem_cons_self b []))
  | a :: a2 :: as, b :: b2 :: bs, _, _, ha, hb, h => by
    rw [joinC_cons_ne c a (a2 :: as) (by simp),
      joinC_cons_ne c b (b2 :: bs) (by simp)] at h
    have hs := sep_split a b (joinC [c] (a2 :: as)) (joinC [c] (b2 :: bs))
      (ha a (List.mem_cons_self a _)) (hb b (List.mem_cons_self b _)) h
    have ih := joinC_inj_nonempty c (a2 :: as) (b2 :: bs) (by simp) (by simp)
      (fun x hx => ha x (List.mem_cons_of_mem a hx))
      (fun x hx => hb x (List.mem_cons_of_mem b hx)) hs.2
    rw [hs.1, ih]

theorem joinC_append_sep (c : Char) :
    ∀ (m l : List (List Char)), m ≠ [] → l ≠ [] →
      joinC [c] (m ++ l) = joinC [c] m ++ c :: joinC [c] l
  | [], _, hm, _ => absurd rfl hm
  | [x], l, _, hl => by
    rw [List.cons_append, List.nil_append, joinC_cons_ne c x l hl, joinC_single]
  | x :: x2 :: m', l, _, hl => by
    rw [List.cons_append,
      joinC_cons_ne c x ((x2 :: m') ++ l) (by simp),
      joinC_append_sep c (x2 :: m') l (by simp) hl,
      joinC_cons_ne c x (x2 :: m') (by simp)]
    rw [List.append_assoc]
    rfl

theorem goJoin_newline_inj (m : List String) :
    ∀ (l1 l2 : List String), m ≠ [] →
      (∀ x ∈ l1, ('\n' : Char) ∉ x.data) →
      (∀ x ∈ l2, ('\n' : Char) ∉ x.data) →
      goJoin "\n" (m ++ l1) = goJoin "\n" (m ++ l2) → l1 = l2 := by
  intro l1 l2 hm h1 h2 h
  have hd := congrArg String.data h
  rw [goJoin_data, goJoin_data] at hd
  have hnl : ("\n" : String).data = ['\n'] := rfl
  rw [hnl, List.map_append, List.map_append] at hd
  have hmD : m.map String.data ≠ [] := by
    cases m with
    | nil => exact absurd rfl hm
    | cons x xs => simp
  cases hl1 : l1 with
  | nil =>
    cases hl2 : l2 with
    | nil => rfl
    | cons b bs =>
      rw [hl1, hl2] at hd
      rw [List.map_nil, List.append_nil, List.map_cons,
        joinC_append_sep '\n' (m.map String.data) (b.data :: bs.map String.data)
          hmD (by simp)] at hd
      have := List.self_eq_append_right.mp hd
      cases this
  | cons a as =>
    cases hl2 : l2 with
    | nil =>
      rw [hl1, hl2] at hd
      rw [List.map_nil, List.append_nil, List.map_cons,
        joinC_append_sep '\n' (m.map String.data) (a.data :: as.map String.data)
          hmD (by simp)] at hd
      have := List.self_eq_append_right.mp hd.symm
      cases this
    | cons b bs =>
      rw [hl1, hl2] at hd
      rw [List.map_cons, List.map_cons,
        joinC_append_sep '\n' (m.map String.data) (a.data :: as.map String.data)
          hmD (by simp),
        joinC_append_sep '\n' (m.map String.data) (b.data :: bs.map String.data)
          hmD (by simp)] at hd
      have hc := List.append_cancel_left hd
      injection hc with _ hc2
      have hinj := joinC_inj_nonempty '\n' (a.data :: as.map String.data)
        (b.data :: bs.map String.data) (by simp) (by simp)
        (fun x hx => by
          rcases List.mem_map.mp (show x ∈ (a :: as).map String.data from
            List.map_cons String.data a as ▸ hx) with ⟨u, hu, hux⟩
          exact hux ▸ h1 u (hl1 ▸ hu))
        (fun x hx => by
          rcases List.mem_map.mp (show x ∈ (b :: bs).map String.data from
            List.map_cons String.data b bs ▸ hx) with ⟨u, hu, hux⟩
          exact hux ▸ h2 u (hl2 ▸ hu))
        hc2
      have hmapinj : Function.Injective (List.map String.data) :=
        List.map_injective_iff.mpr (fun u v huv => String.ext huv)
      have := hmapinj ((List.map_cons String.data a as).symm ▸
        (List.map_cons String.data b bs).symm ▸ hinj)
      exact this

/-- C7 (amended): for parcel digest strings that do not contain the
newline separator, the canonical text is injective in the parcel digest
sequence (so changing any digest, or the order of distinct digests,
changes the text for every author and role). -/
theorem cleartext_injective_in_parcels (i1 i2 : Invoice) (author role : String)
    (hb : i1.Bindle = i2.Bindle)
    (h1 : ∀ p ∈ i1.Parcel, ('\n' : Char) ∉ p.Label.SHA256.data)
    (h2 : ∀ p ∈ i2.Parcel, ('\n' : Char) ∉ p.Label.SHA256.data)
    (hne : i1.Parcel.map (fun p => p.Label.SHA256) ≠
      i2.Parcel.map (fun p => p.Label.SHA256)) :
    i1.generateCleartext author role ≠ i2.generateCleartext author role := by
  intro heq
  apply hne
  rw [generateCleartext_eq_goJoin, generateCleartext_eq_goJoin, hb] at heq
  exact goJoin_newline_inj
    [author, i2.Bindle.Name, i2.Bindle.Version, role, "~"]
    (i1.Parcel.map fun p => p.Label.SHA256)
    (i2.Parcel.map fun p => p.Label.SHA256)
    (by simp)
    (fun x hx => by
      rcases List.mem_map.mp hx with ⟨p, hp, rfl⟩
      exact h1 p hp)
    (fun x hx => by
      rcases List.mem_map.mp hx with ⟨p, hp, rfl⟩
      exact h2 p hp)
    heq

/-- A bindle block for the C7 scenarios. -/
def c7Bindle : BindleSpec := { Name := "n", Version := "v", Authors := [] }

/-- One parcel whose digest string embeds a newline. -/
def c7InvA : Invoice :=
  { Bindle := c7Bindle, Parcel := [⟨⟨"a\nb"⟩⟩], Signature := [] }

/-- Two parcels with digests `a` and `b`. -/
def c7InvB : Invoice :=
  { Bindle := c7Bindle, Parcel := [⟨⟨"a"⟩⟩, ⟨⟨"b"⟩⟩], Signature := [] }

/-- The two parcels of `c7InvB` in the opposite order. -/
def c7InvC : Invoice :=
  { Bindle := c7Bindle, Parcel := [⟨⟨"b"⟩⟩, ⟨⟨"a"⟩⟩], Signature := [] }

/-- C7 counterexample to the claim as stated: two distinct parcel digest
sequences — one parcel `a\nb` versus the two parcels `a`, `b` — produce
the very same canonical text, because embedded newlines are not escaped. -/
theorem cleartext_parcel_collision :
    c7InvA.Parcel.map (fun p => p.Label.SHA256) ≠
      c7InvB.Parcel.map (fun p => p.Label.SHA256) ∧
    c7InvA.generateCleartext "A" "creator" =
      c7InvB.generateCleartext "A" "creator" := by
  refine ⟨by decide, by decide⟩

/-- Witness for C7: reordering the two newline-free digests `a`, `b`
changes the canonical text. -/
theorem cleartext_injective_in_parcels_witness :
    c7InvB.generateCleartext "A" "creator" ≠
      c7InvC.generateCleartext "A" "creator" :=
  cleartext_injective_in_parcels c7InvB c7InvC "A" "creator" rfl
    (by decide) (by decide) (by decide)

end GoBindle
